import Mathlib

/-!
Verification of the Aptgrameen credit-triggered hedge engine.

Shallow embedding of the TypeScript sources:
* `src/frontend/src/lib/rate-limiter/RateLimiter.ts`
* `src/frontend/src/lib/hedge/HedgeService.ts`
* `src/frontend/src/lib/contracts/HedgeContractService.ts` (BatchProcessor)
* the SmartCache and CreditMonitorService sources.

Conventions of the embedding:
* JavaScript `number` is modelled as `ℚ` (the sources only use +, -, *, /,
  `Math.min` on values for which rational arithmetic is exact).
* `Date.now()` timestamps are modelled as explicit time parameters threaded
  through each call (`ℕ` milliseconds for the rate limiter and hedge service,
  `ℤ` for the cache where differences appear literally in the source).
* A JavaScript `Map` is modelled as an insertion-ordered association list;
  `JsMap.set` replaces in place or appends, exactly like `Map.prototype.set`.
* External calls (market orders, price feed) are modelled by an environment
  record passed to the call; thrown exceptions become `Except` values.
-/

namespace Aptgrameen

/-! ## JavaScript `Map` model -/

namespace JsMap

/-- `Map.prototype.get`: first binding of the key, if any. -/
def get {α : Type} : List (String × α) → String → Option α
  | [], _ => none
  | (k', v) :: rest, k => if k' = k then some v else get rest k

/-- `Map.prototype.set`: replace the binding in place, else append. -/
def set {α : Type} : List (String × α) → String → α → List (String × α)
  | [], k, v => [(k, v)]
  | (k', v') :: rest, k, v =>
      if k' = k then (k, v) :: rest else (k', v') :: set rest k v

theorem get_set_self {α : Type} (m : List (String × α)) (k : String) (v : α) :
    get (set m k v) k = some v := by
  induction m with
  | nil => simp [get, set]
  | cons p rest ih =>
      obtain ⟨k', v'⟩ := p
      by_cases h : k' = k
      · simp [get, set, h]
      · simp [get, set, h, ih]

theorem get_set_ne {α : Type} (m : List (String × α)) (k k' : String) (v : α)
    (h : k ≠ k') : get (set m k v) k' = get m k' := by
  induction m with
  | nil => simp [get, set, h]
  | cons p rest ih =>
      obtain ⟨k₀, v₀⟩ := p
      by_cases h₀ : k₀ = k
      · subst h₀
        simp [get, set, h]
      · simp only [set, if_neg h₀, get]
        by_cases h₁ : k₀ = k'
        · simp [h₁]
        · simp [h₁, ih]

theorem mem_set {α : Type} {m : List (String × α)} {k : String} {v : α}
    {p : String × α} (hp : p ∈ set m k v) : p = (k, v) ∨ p ∈ m := by
  induction m with
  | nil => simpa [set] using hp
  | cons q rest ih =>
      obtain ⟨k', v'⟩ := q
      by_cases h : k' = k
      · simp only [set, if_pos h, List.mem_cons] at hp
        rcases hp with h1 | h2
        · exact Or.inl h1
        · exact Or.inr (List.mem_cons_of_mem _ h2)
      · simp only [set, if_neg h, List.mem_cons] at hp
        rcases hp with h1 | h2
        · exact Or.inr (by simp [h1])
        · rcases ih h2 with h3 | h4
          · exact Or.inl h3
          · exact Or.inr (List.mem_cons_of_mem _ h4)

theorem set_eq_append_of_get_none {α : Type} {m : List (String × α)} {k : String}
    (v : α) (h : get m k = none) : set m k v = m ++ [(k, v)] := by
  induction m with
  | nil => simp [set]
  | cons p rest ih =>
      obtain ⟨k', v'⟩ := p
      by_cases hk : k' = k
      · simp [get, hk] at h
      · simp only [get, if_neg hk] at h
        simp [set, hk, ih h]

/-- `Map.prototype.delete`: drop the binding of the key, if present. -/
def del {α : Type} : List (String × α) → String → List (String × α)
  | [], _ => []
  | (k', v) :: rest, k => if k' = k then rest else (k', v) :: del rest k

theorem get_eq_none_of_not_mem_keys {α : Type} {m : List (String × α)} {k : String}
    (h : k ∉ m.map Prod.fst) : get m k = none := by
  induction m with
  | nil => rfl
  | cons p rest ih =>
      obtain ⟨k', v'⟩ := p
      simp only [List.map_cons, List.mem_cons] at h
      push_neg at h
      have hne : ¬ k' = k := fun he => h.1 he.symm
      simp only [get, if_neg hne]
      exact ih h.2

theorem get_del_self_of_nodup {α : Type} {m : List (String × α)} {k : String}
    (h : (m.map Prod.fst).Nodup) : get (del m k) k = none := by
  induction m with
  | nil => rfl
  | cons p rest ih =>
      obtain ⟨k', v'⟩ := p
      simp only [List.map_cons, List.nodup_cons] at h
      by_cases hk : k' = k
      · subst hk
        simp only [del, if_pos rfl]
        exact get_eq_none_of_not_mem_keys h.1
      · simp only [del, if_neg hk, get, if_neg hk]
        exact ih h.2

theorem keys_set_subset {α : Type} {m : List (String × α)} {k : String} {v : α}
    {x : String} (hx : x ∈ (set m k v).map Prod.fst) :
    x = k ∨ x ∈ m.map Prod.fst := by
  simp only [List.mem_map] at hx
  obtain ⟨p, hp, rfl⟩ := hx
  rcases mem_set hp with h | h
  · exact Or.inl (by rw [h])
  · exact Or.inr (List.mem_map_of_mem _ h)

theorem nodupKeys_set {α : Type} {m : List (String × α)} (k : String) (v : α)
    (h : (m.map Prod.fst).Nodup) : ((set m k v).map Prod.fst).Nodup := by
  induction m with
  | nil => simp [set]
  | cons p rest ih =>
      obtain ⟨k', v'⟩ := p
      simp only [List.map_cons, List.nodup_cons] at h
      by_cases hk : k' = k
      · subst hk
        simpa [set] using h
      · simp only [set, if_neg hk, List.map_cons, List.nodup_cons]
        refine ⟨?_, ih h.2⟩
        intro hmem
        rcases keys_set_subset hmem with h1 | h1
        · exact hk h1
        · exact h.1 h1

theorem del_sublist {α : Type} (m : List (String × α)) (k : String) :
    List.Sublist (del m k) m := by
  induction m with
  | nil => simp [del]
  | cons p rest ih =>
      obtain ⟨k', v'⟩ := p
      by_cases hk : k' = k
      · simp only [del, if_pos hk]
        exact List.sublist_cons_self _ _
      · simp only [del, if_neg hk]
        exact List.Sublist.cons₂ _ ih

theorem nodupKeys_del {α : Type} {m : List (String × α)} (k : String)
    (h : (m.map Prod.fst).Nodup) : ((del m k).map Prod.fst).Nodup :=
  h.sublist (List.Sublist.map Prod.fst (del_sublist m k))

end JsMap

/-! ## RateLimiter (`src/frontend/src/lib/rate-limiter/RateLimiter.ts`) -/

/-- `interface TokenBucket`. -/
structure TokenBucket where
  tokens : ℚ
  lastRefill : ℕ
  deriving DecidableEq, Repr

/-- `interface RateLimiterConfig` (the `refillInterval` only drives the
background timer and does not enter the per-call arithmetic). -/
structure RateLimiterConfig where
  maxTokens : ℚ
  refillRate : ℚ
  refillInterval : ℕ
  deriving DecidableEq, Repr

namespace RateLimiter

/-- Map of bucket keys to buckets, mirroring `private buckets: Map<string, TokenBucket>`. -/
abbrev Buckets := List (String × TokenBucket)

/-- `refillBucket`: add `(timePassed / 1000) * refillRate` tokens, clamped at
`maxTokens`, and stamp `lastRefill = now`. -/
def refillBucket (cfg : RateLimiterConfig) (now : ℕ) (b : TokenBucket) : TokenBucket :=
  { tokens := min cfg.maxTokens (b.tokens + ((now : ℚ) - (b.lastRefill : ℚ)) / 1000 * cfg.refillRate)
    lastRefill := now }

/-- `acquire(key, tokens, 0)`: the `timeout = 0` path of `acquire` — create the
bucket at `maxTokens` if missing, refill once, then deduct if
`bucket.tokens >= tokens`, else fail; the (refilled) bucket stays in the map
either way. -/
def acquire (cfg : RateLimiterConfig) (now : ℕ) (key : String) (cost : ℚ)
    (buckets : Buckets) : Bool × Buckets :=
  let b₀ := (JsMap.get buckets key).getD { tokens := cfg.maxTokens, lastRefill := now }
  let b := refillBucket cfg now b₀
  if cost ≤ b.tokens then
    (true, JsMap.set buckets key { b with tokens := b.tokens - cost })
  else
    (false, JsMap.set buckets key b)

/-- One observable rate-limiter event: an `acquire(key, cost)` call at time
`now`, or one tick of the background refill timer at time `now`. -/
inductive RLOp where
  | acq (key : String) (cost : ℚ) (now : ℕ)
  | tick (now : ℕ)
  deriving Repr

/-- Time at which an operation happens. -/
def RLOp.time : RLOp → ℕ
  | .acq _ _ n => n
  | .tick n => n

/-- Cost of an operation (a timer tick consumes nothing). -/
def RLOp.cost : RLOp → ℚ
  | .acq _ c _ => c
  | .tick _ => 0

/-- Apply one operation to the bucket map (`startRefill`'s timer body refills
every bucket). -/
def step (cfg : RateLimiterConfig) (buckets : Buckets) : RLOp → Buckets
  | .acq key c now => (acquire cfg now key c buckets).2
  | .tick now => buckets.map (fun p => (p.1, refillBucket cfg now p.2))

/-- Run a sequence of operations. -/
def run (cfg : RateLimiterConfig) (buckets : Buckets) : List RLOp → Buckets
  | [] => buckets
  | op :: rest => run cfg (step cfg buckets op) rest

/-- The bucket invariant claimed by the spec: `0 ≤ tokens ≤ maxTokens`, plus
the clock-consistency fact (`lastRefill` never ahead of the current time)
needed to push it through refills. -/
def BucketsInv (cfg : RateLimiterConfig) (t : ℕ) (buckets : Buckets) : Prop :=
  ∀ p ∈ buckets, 0 ≤ p.2.tokens ∧ p.2.tokens ≤ cfg.maxTokens ∧ p.2.lastRefill ≤ t

instance (cfg : RateLimiterConfig) (t : ℕ) (buckets : Buckets) :
    Decidable (BucketsInv cfg t buckets) := by
  unfold BucketsInv
  infer_instance

/-- Operation times are nondecreasing and start no earlier than `t`. -/
def TimesMono : ℕ → List RLOp → Prop
  | _, [] => True
  | t, op :: rest => t ≤ op.time ∧ TimesMono op.time rest

instance : ∀ (t : ℕ) (ops : List RLOp), Decidable (TimesMono t ops)
  | _, [] => by unfold TimesMono; infer_instance
  | t, op :: rest =>
      have := instDecidableTimesMono op.time rest
      by unfold TimesMono; infer_instance

theorem refillBucket_inv (cfg : RateLimiterConfig) (now : ℕ) (b : TokenBucket)
    (hmax : 0 ≤ cfg.maxTokens) (hrate : 0 ≤ cfg.refillRate)
    (htok : 0 ≤ b.tokens) (ht : b.lastRefill ≤ now) :
    0 ≤ (refillBucket cfg now b).tokens ∧
      (refillBucket cfg now b).tokens ≤ cfg.maxTokens ∧
      (refillBucket cfg now b).lastRefill = now := by
  unfold refillBucket
  refine ⟨le_min hmax ?_, ⟨min_le_left _ _, rfl⟩⟩
  have helapsed : (0 : ℚ) ≤ ((now : ℚ) - (b.lastRefill : ℚ)) := by
    have : (b.lastRefill : ℚ) ≤ (now : ℚ) := by exact_mod_cast ht
    linarith
  have hadd : (0 : ℚ) ≤ ((now : ℚ) - (b.lastRefill : ℚ)) / 1000 * cfg.refillRate := by
    apply mul_nonneg (div_nonneg helapsed (by norm_num)) hrate
  linarith

theorem acquire_inv (cfg : RateLimiterConfig) (now : ℕ) (key : String) (cost : ℚ)
    (buckets : Buckets) (hmax : 0 ≤ cfg.maxTokens) (hrate : 0 ≤ cfg.refillRate)
    (hcost : 0 ≤ cost) (hinv : BucketsInv cfg now buckets) :
    BucketsInv cfg now (acquire cfg now key cost buckets).2 := by
  intro p hp
  unfold acquire at hp
  set b₀ := (JsMap.get buckets key).getD { tokens := cfg.maxTokens, lastRefill := now } with hb₀
  have hb₀inv : 0 ≤ b₀.tokens ∧ b₀.lastRefill ≤ now := by
    rw [hb₀]
    cases hget : JsMap.get buckets key with
    | none => simp [hmax]
    | some b =>
        have hmem : (key, b) ∈ buckets := by
          clear hb₀ hp
          induction buckets with
          | nil => simp [JsMap.get] at hget
          | cons q rest ih =>
              obtain ⟨k', v'⟩ := q
              by_cases hk : k' = key
              · subst hk
                simp [JsMap.get] at hget
                simp [hget]
              · simp only [JsMap.get, if_neg hk] at hget
                exact List.mem_cons_of_mem _
                  (ih (fun q hq => hinv q (List.mem_cons_of_mem _ hq)) hget)
        have := hinv _ hmem
        exact ⟨this.1, by simpa using this.2.2⟩
  have hrefill := refillBucket_inv cfg now b₀ hmax hrate hb₀inv.1 hb₀inv.2
  set b := refillBucket cfg now b₀ with hb
  by_cases hc : cost ≤ b.tokens
  · simp only [if_pos hc] at hp
    rcases JsMap.mem_set hp with h1 | h2
    · subst h1
      refine ⟨?_, ?_, ?_⟩
      · show (0 : ℚ) ≤ b.tokens - cost
        linarith
      · show b.tokens - cost ≤ cfg.maxTokens
        linarith [hrefill.2.1]
      · show b.lastRefill ≤ now
        rw [hrefill.2.2]
    · exact hinv _ h2
  · simp only [if_neg hc] at hp
    rcases JsMap.mem_set hp with h1 | h2
    · subst h1
      exact ⟨hrefill.1, hrefill.2.1, le_of_eq hrefill.2.2⟩
    · exact hinv _ h2

theorem step_inv (cfg : RateLimiterConfig) (buckets : Buckets) (op : RLOp)
    (hmax : 0 ≤ cfg.maxTokens) (hrate : 0 ≤ cfg.refillRate) (hcost : 0 ≤ op.cost)
    (hinv : BucketsInv cfg op.time buckets) :
    BucketsInv cfg op.time (step cfg buckets op) := by
  cases op with
  | acq key c now => exact acquire_inv cfg now key c buckets hmax hrate hcost hinv
  | tick now =>
      intro p hp
      simp only [step, List.mem_map] at hp
      obtain ⟨q, hq, rfl⟩ := hp
      have hqinv := hinv q hq
      have := refillBucket_inv cfg now q.2 hmax hrate hqinv.1 (by simpa using hqinv.2.2)
      exact ⟨this.1, this.2.1, le_of_eq this.2.2⟩

theorem mono_of_le (cfg : RateLimiterConfig) (t t' : ℕ) (buckets : Buckets)
    (h : t ≤ t') (hinv : BucketsInv cfg t buckets) : BucketsInv cfg t' buckets := by
  intro p hp
  have := hinv p hp
  exact ⟨this.1, this.2.1, le_trans this.2.2 h⟩

theorem run_inv (cfg : RateLimiterConfig) (ops : List RLOp) (buckets : Buckets) (t : ℕ)
    (hmax : 0 ≤ cfg.maxTokens) (hrate : 0 ≤ cfg.refillRate)
    (hcost : ∀ op ∈ ops, 0 ≤ op.cost) (htimes : TimesMono t ops)
    (hinv : BucketsInv cfg t buckets) :
    ∀ p ∈ run cfg buckets ops, 0 ≤ p.2.tokens ∧ p.2.tokens ≤ cfg.maxTokens := by
  induction ops generalizing buckets t with
  | nil =>
      intro p hp
      exact ⟨(hinv p hp).1, (hinv p hp).2.1⟩
  | cons op rest ih =>
      obtain ⟨hle, hrest⟩ := htimes
      have h₁ : BucketsInv cfg op.time buckets := mono_of_le cfg t op.time buckets hle hinv
      have h₂ : BucketsInv cfg op.time (step cfg buckets op) :=
        step_inv cfg buckets op hmax hrate (hcost op (by simp)) h₁
      exact ih (step cfg buckets op) op.time
        (fun o ho => hcost o (List.mem_cons_of_mem _ ho)) hrest h₂

theorem acquire_fst_iff (cfg : RateLimiterConfig) (now : ℕ) (key : String)
    (cost : ℚ) (buckets : Buckets) :
    (acquire cfg now key cost buckets).1 = true ↔
      cost ≤ (refillBucket cfg now
        ((JsMap.get buckets key).getD { tokens := cfg.maxTokens, lastRefill := now })).tokens := by
  unfold acquire
  by_cases h : cost ≤ (refillBucket cfg now
      ((JsMap.get buckets key).getD { tokens := cfg.maxTokens, lastRefill := now })).tokens
  · simp [h]
  · simp [h]

theorem acquire_eq_of_admitted (cfg : RateLimiterConfig) (now : ℕ) (key : String)
    (cost : ℚ) (buckets : Buckets)
    (h : cost ≤ (refillBucket cfg now
      ((JsMap.get buckets key).getD { tokens := cfg.maxTokens, lastRefill := now })).tokens) :
    acquire cfg now key cost buckets =
      (true, JsMap.set buckets key
        { tokens := (refillBucket cfg now
            ((JsMap.get buckets key).getD { tokens := cfg.maxTokens, lastRefill := now })).tokens - cost
          lastRefill := now }) := by
  unfold acquire
  rw [if_pos h]
  rfl

/-- The `requests.every(({key, tokens}) => ...)` pre-check of `acquireBatch`:
for each request in turn, a missing bucket passes (`new bucket will have max
tokens`), an existing bucket is refilled in place and must hold enough
tokens; `every` short-circuits at the first failure. Returns the verdict and
the (mutated) bucket map. -/
def checkAll (cfg : RateLimiterConfig) (now : ℕ) :
    List (String × ℚ) → Buckets → Bool × Buckets
  | [], m => (true, m)
  | (k, c) :: rest, m =>
      match JsMap.get m k with
      | none => checkAll cfg now rest m
      | some b =>
          let b' := refillBucket cfg now b
          let m' := JsMap.set m k b'
          if c ≤ b'.tokens then checkAll cfg now rest m' else (false, m')

/-- The admission loop of `acquireBatch` when the pre-check passed:
`results.set(key, await this.acquire(key, tokens, 0))` for each request. -/
def consumeAll (cfg : RateLimiterConfig) (now : ℕ) :
    List (String × ℚ) → List (String × Bool) → Buckets →
      List (String × Bool) × Buckets
  | [], results, m => (results, m)
  | (k, c) :: rest, results, m =>
      let r := acquire cfg now k c m
      consumeAll cfg now rest (JsMap.set results k r.1) r.2

/-- `acquireBatch(requests, 0)`: the `timeout = 0` path — consume every
request if the pre-check passes, else report `false` for every key. -/
def acquireBatch (cfg : RateLimiterConfig) (now : ℕ)
    (requests : List (String × ℚ)) (m : Buckets) :
    List (String × Bool) × Buckets :=
  match checkAll cfg now requests m with
  | (true, m₁) => consumeAll cfg now requests [] m₁
  | (false, m₁) =>
      (requests.foldl (fun results p => JsMap.set results p.1 false) [], m₁)

theorem refillBucket_eq_self (cfg : RateLimiterConfig) (now : ℕ) (b : TokenBucket)
    (h1 : b.lastRefill = now) (h2 : b.tokens ≤ cfg.maxTokens) :
    refillBucket cfg now b = b := by
  obtain ⟨tk, lr⟩ := b
  simp only at h1 h2
  subst h1
  unfold refillBucket
  simp [min_eq_right h2]

theorem refillBucket_idem (cfg : RateLimiterConfig) (now : ℕ) (b : TokenBucket) :
    refillBucket cfg now (refillBucket cfg now b) = refillBucket cfg now b :=
  refillBucket_eq_self cfg now _ rfl (min_le_left _ _)

/-- The state of one key after a passed pre-check: either an existing bucket
already refilled to `now` with enough tokens, or no bucket and a cost the
fresh bucket (at `maxTokens`) can cover. -/
def ReadyAt (cfg : RateLimiterConfig) (now : ℕ) (m : Buckets) (k : String) (c : ℚ) :
    Prop :=
  (∃ b, JsMap.get m k = some b ∧ b.lastRefill = now ∧ c ≤ b.tokens ∧
    b.tokens ≤ cfg.maxTokens) ∨
  (JsMap.get m k = none ∧ c ≤ cfg.maxTokens)

theorem readyAt_set_ne (cfg : RateLimiterConfig) (now : ℕ) (m : Buckets)
    (k k' : String) (c : ℚ) (v : TokenBucket) (hne : k' ≠ k)
    (h : ReadyAt cfg now m k c) : ReadyAt cfg now (JsMap.set m k' v) k c := by
  unfold ReadyAt at h ⊢
  rw [JsMap.get_set_ne m k' k v hne]
  exact h

theorem acquire_of_ready (cfg : RateLimiterConfig) (now : ℕ) (m : Buckets)
    (k : String) (c : ℚ) (h : ReadyAt cfg now m k c) :
    ∃ b', acquire cfg now k c m = (true, JsMap.set m k b') := by
  rcases h with ⟨b, hget, hlast, hc, hmax⟩ | ⟨hget, hcmax⟩
  · refine ⟨{ b with tokens := b.tokens - c }, ?_⟩
    unfold acquire
    rw [hget]
    simp only [Option.getD_some]
    rw [refillBucket_eq_self cfg now b hlast hmax, if_pos hc]
  · refine ⟨{ tokens := cfg.maxTokens - c, lastRefill := now }, ?_⟩
    unfold acquire
    rw [hget]
    simp only [Option.getD_none]
    rw [refillBucket_eq_self cfg now _ rfl (le_refl _)]
    rw [if_pos hcmax]

theorem consume_frame (cfg : RateLimiterConfig) (now : ℕ) (k : String) :
    ∀ (reqs : List (String × ℚ)) (results : List (String × Bool)) (m : Buckets),
      k ∉ reqs.map Prod.fst →
      JsMap.get (consumeAll cfg now reqs results m).1 k = JsMap.get results k := by
  intro reqs
  induction reqs with
  | nil => intro results m _; rfl
  | cons p rest ih =>
      intro results m hk
      obtain ⟨k₀, c₀⟩ := p
      simp only [List.map_cons, List.mem_cons] at hk
      push_neg at hk
      unfold consumeAll
      rw [ih _ _ hk.2]
      exact JsMap.get_set_ne results k₀ k _ (fun he => hk.1 he.symm)

theorem consume_success (cfg : RateLimiterConfig) (now : ℕ) :
    ∀ (reqs : List (String × ℚ)) (results : List (String × Bool)) (m : Buckets),
      (reqs.map Prod.fst).Nodup →
      (∀ p ∈ reqs, ReadyAt cfg now m p.1 p.2) →
      ∀ p ∈ reqs, JsMap.get (consumeAll cfg now reqs results m).1 p.1 = some true := by
  intro reqs
  induction reqs with
  | nil => intro _ _ _ _ p hp; cases hp
  | cons q rest ih =>
      intro results m hnodup hready p hp
      obtain ⟨k, c⟩ := q
      simp only [List.map_cons, List.nodup_cons] at hnodup
      obtain ⟨b', hacq⟩ := acquire_of_ready cfg now m k c (hready (k, c) (by simp))
      unfold consumeAll
      rw [hacq]
      rcases List.mem_cons.mp hp with h | h
      · subst h
        rw [consume_frame cfg now k rest _ _ hnodup.1]
        exact JsMap.get_set_self results k true
      · refine ih _ _ hnodup.2 ?_ p h
        intro q hq
        refine readyAt_set_ne cfg now m q.1 k q.2 b' ?_
          (hready q (List.mem_cons_of_mem _ hq))
        intro he
        rw [he] at hnodup
        exact hnodup.1 (List.mem_map_of_mem Prod.fst hq)

theorem get_foldl_setFalse :
    ∀ (reqs : List (String × ℚ)) (init : List (String × Bool)) (k : String),
      (k ∈ reqs.map Prod.fst ∨ JsMap.get init k = some false) →
      JsMap.get (reqs.foldl (fun results p => JsMap.set results p.1 false) init) k
        = some false := by
  intro reqs
  induction reqs with
  | nil =>
      intro init k h
      rcases h with h | h
      · cases h
      · exact h
  | cons q rest ih =>
      intro init k h
      obtain ⟨k₀, c₀⟩ := q
      simp only [List.foldl_cons]
      refine ih _ k ?_
      rcases h with h | h
      · simp only [List.map_cons, List.mem_cons] at h
        rcases h with h1 | h1
        · subst h1
          exact Or.inr (JsMap.get_set_self init k false)
        · exact Or.inl h1
      · by_cases hk : k₀ = k
        · subst hk
          exact Or.inr (JsMap.get_set_self init k₀ false)
        · exact Or.inr ((JsMap.get_set_ne init k₀ k false hk).trans h)

/-- The pre-check of `acquireBatch` never consumes: every key's bucket is
either untouched or merely refilled. -/
def RefillRel (cfg : RateLimiterConfig) (now : ℕ) (m m' : Buckets) : Prop :=
  ∀ k, JsMap.get m' k = JsMap.get m k ∨
    ∃ b, JsMap.get m k = some b ∧ JsMap.get m' k = some (refillBucket cfg now b)

theorem refillRel_refl (cfg : RateLimiterConfig) (now : ℕ) (m : Buckets) :
    RefillRel cfg now m m := fun _ => Or.inl rfl

theorem refillRel_trans (cfg : RateLimiterConfig) (now : ℕ) (m m' m'' : Buckets)
    (h1 : RefillRel cfg now m m') (h2 : RefillRel cfg now m' m'') :
    RefillRel cfg now m m'' := by
  intro k
  rcases h2 k with h2k | ⟨b', hb'1, hb'2⟩
  · rw [h2k]
    exact h1 k
  · rcases h1 k with h1k | ⟨b, hb1, hb2⟩
    · rw [h1k] at hb'1
      exact Or.inr ⟨b', hb'1, hb'2⟩
    · rw [hb2] at hb'1
      obtain rfl : refillBucket cfg now b = b' := by injection hb'1
      rw [refillBucket_idem] at hb'2
      exact Or.inr ⟨b, hb1, hb'2⟩

theorem refillRel_set (cfg : RateLimiterConfig) (now : ℕ) (m : Buckets)
    (k : String) (b : TokenBucket) (hget : JsMap.get m k = some b) :
    RefillRel cfg now m (JsMap.set m k (refillBucket cfg now b)) := by
  intro k'
  by_cases hk : k = k'
  · subst hk
    exact Or.inr ⟨b, hget, JsMap.get_set_self m k _⟩
  · exact Or.inl (JsMap.get_set_ne m k k' _ hk)

theorem checkAll_rel (cfg : RateLimiterConfig) (now : ℕ) :
    ∀ (reqs : List (String × ℚ)) (m : Buckets),
      RefillRel cfg now m (checkAll cfg now reqs m).2 := by
  intro reqs
  induction reqs with
  | nil => intro m; exact refillRel_refl cfg now m
  | cons q rest ih =>
      intro m
      obtain ⟨k, c⟩ := q
      unfold checkAll
      cases hget : JsMap.get m k with
      | none => exact ih m
      | some b =>
          dsimp only
          by_cases hc : c ≤ (refillBucket cfg now b).tokens
          · rw [if_pos hc]
            exact refillRel_trans cfg now _ _ _
              (refillRel_set cfg now m k b hget) (ih _)
          · rw [if_neg hc]
            exact refillRel_set cfg now m k b hget

theorem readyAt_refill_step (cfg : RateLimiterConfig) (now : ℕ) (m : Buckets)
    (k : String) (b : TokenBucket) (hget : JsMap.get m k = some b)
    (k₀ : String) (c₀ : ℚ) (h : ReadyAt cfg now m k₀ c₀) :
    ReadyAt cfg now (JsMap.set m k (refillBucket cfg now b)) k₀ c₀ := by
  by_cases hk : k = k₀
  · subst hk
    rcases h with ⟨b₀, hget₀, hlast₀, hc₀, hmax₀⟩ | ⟨hnone, _⟩
    · rw [hget] at hget₀
      obtain rfl : b = b₀ := by injection hget₀
      exact Or.inl ⟨b, (JsMap.get_set_self m k _).trans
        (by rw [refillBucket_eq_self cfg now b hlast₀ hmax₀]),
        hlast₀, hc₀, hmax₀⟩
    · rw [hget] at hnone
      cases hnone
  · exact readyAt_set_ne cfg now m k₀ k c₀ _ hk h

theorem checkAll_ready (cfg : RateLimiterConfig) (now : ℕ) :
    ∀ (reqs : List (String × ℚ)) (m : Buckets),
      (∀ p ∈ reqs, JsMap.get m p.1 = none → p.2 ≤ cfg.maxTokens) →
      ∀ m₁, checkAll cfg now reqs m = (true, m₁) →
        (∀ p ∈ reqs, ReadyAt cfg now m₁ p.1 p.2) ∧
        (∀ k c, ReadyAt cfg now m k c → ReadyAt cfg now m₁ k c) := by
  intro reqs
  induction reqs with
  | nil =>
      intro m _ m₁ hchk
      obtain rfl : m = m₁ := by injection hchk
      exact ⟨fun p hp => absurd hp (List.not_mem_nil p), fun _ _ h => h⟩
  | cons q rest ih =>
      intro m hfresh m₁ hchk
      obtain ⟨k, c⟩ := q
      unfold checkAll at hchk
      cases hget : JsMap.get m k with
      | none =>
          rw [hget] at hchk
          have hrest := ih m (fun p hp => hfresh p (List.mem_cons_of_mem _ hp)) m₁ hchk
          refine ⟨?_, hrest.2⟩
          intro p hp
          rcases List.mem_cons.mp hp with h | h
          · subst h
            exact hrest.2 k c (Or.inr ⟨hget, hfresh (k, c) (by simp) hget⟩)
          · exact hrest.1 p h
      | some b =>
          rw [hget] at hchk
          dsimp only at hchk
          by_cases hc : c ≤ (refillBucket cfg now b).tokens
          · rw [if_pos hc] at hchk
            have hfresh' : ∀ p ∈ rest,
                JsMap.get (JsMap.set m k (refillBucket cfg now b)) p.1 = none →
                  p.2 ≤ cfg.maxTokens := by
              intro p hp hnone
              refine hfresh p (List.mem_cons_of_mem _ hp) ?_
              by_cases hk : k = p.1
              · subst hk
                rw [JsMap.get_set_self] at hnone
                cases hnone
              · rwa [JsMap.get_set_ne m k p.1 _ hk] at hnone
            have hrest := ih _ hfresh' m₁ hchk
            refine ⟨?_, fun k₀ c₀ h =>
              hrest.2 k₀ c₀ (readyAt_refill_step cfg now m k b hget k₀ c₀ h)⟩
            intro p hp
            rcases List.mem_cons.mp hp with h | h
            · subst h
              exact hrest.2 k c
                (Or.inl ⟨refillBucket cfg now b, JsMap.get_set_self m k _, rfl, hc,
                  min_le_left _ _⟩)
            · exact hrest.1 p h
          · rw [if_neg hc] at hchk
            cases hchk

end RateLimiter

/-! ## HedgeService (`src/frontend/src/lib/hedge/HedgeService.ts`) -/

/-- `interface HedgeConfig`. -/
structure HedgeConfig where
  creditScoreThreshold : ℚ
  hedgeRatio : ℚ
  maxHedgeAmount : ℚ
  minCreditScoreToClose : ℚ
  rebalanceInterval : ℕ
  deriving DecidableEq, Repr

/-- The default configuration in `HedgeService.getInstance`. -/
def defaultHedgeConfig : HedgeConfig :=
  { creditScoreThreshold := 600
    hedgeRatio := 1 / 2
    maxHedgeAmount := 100000
    minCreditScoreToClose := 700
    rebalanceInterval := 60000 }

/-- The default configuration in `RateLimiter.getInstance`. -/
def defaultRateLimiterConfig : RateLimiterConfig :=
  { maxTokens := 100, refillRate := 10, refillInterval := 1000 }

/-- `status: 'open' | 'closed'`. -/
inductive PositionStatus where
  | Open
  | Closed
  deriving DecidableEq, Repr

/-- `interface HedgePosition`. -/
structure HedgePosition where
  id : String
  openPrice : ℚ
  amount : ℚ
  timestamp : ℕ
  creditScore : ℚ
  status : PositionStatus
  pnl : Option ℚ
  deriving DecidableEq, Repr

/-- `side: 'sell' | 'buy'` of the market order object. -/
inductive OrderSide where
  | buy
  | sell
  deriving DecidableEq, Repr

/-- The order object passed to `merkleService.executeMarketOrder`
(`type` is always `'market'` and is omitted). -/
structure MarketOrder where
  symbol : String
  side : OrderSide
  amount : ℚ
  deriving DecidableEq, Repr

/-- Errors thrown by `evaluateAndHedge`. -/
inductive HedgeError where
  | rateLimitExceeded
  | marketError (msg : String)
  deriving DecidableEq, Repr

/-- The external world one `evaluateAndHedge` call observes: the ETH price it
reads (cache or Merkle feed) and the outcome of `executeMarketOrder`. -/
structure HedgeEnv where
  ethPrice : ℚ
  orderResult : Except String Unit

/-- The mutable state of `HedgeService` relevant to the claims: the position
map and the shared rate-limiter buckets. -/
structure HedgeState where
  positions : List (String × HedgePosition)
  buckets : RateLimiter.Buckets
  deriving DecidableEq, Repr

namespace HedgeService

/-- `calculateHedgeAmount(loanAmount, creditScore)`. -/
def calculateHedgeAmount (cfg : HedgeConfig) (loanAmount creditScore : ℚ) : ℚ :=
  let scoreAdjustment := (cfg.creditScoreThreshold - creditScore) / cfg.creditScoreThreshold
  let hedgeAmount := loanAmount * cfg.hedgeRatio * scoreAdjustment
  min hedgeAmount cfg.maxHedgeAmount

/-- The position id `` `hedge_${Date.now()}_${borrowerId}` ``. -/
def hedgePositionId (now : ℕ) (borrowerId : String) : String :=
  "hedge_" ++ toString now ++ "_" ++ borrowerId

/-- JS `String.prototype.split` with a one-character separator, modelled
structurally on the character list (same result as `String.splitOn`, but it
evaluates inside the kernel). -/
def jsSplit (sep : Char) : List Char → List (List Char)
  | [] => [[]]
  | c :: rest =>
      match jsSplit sep rest with
      | [] => [[]]
      | g :: gs => if c = sep then [] :: g :: gs else (c :: g) :: gs

/-- `positionId.split('_')[2]`: how `adjustHedgePosition` recovers the
borrower id from a position id. -/
def borrowerOfPositionId (id : String) : String :=
  String.mk ((jsSplit '_' id.data).getD 2 [])

/-- `evaluateAndHedge(borrowerId, creditScore, loanAmount)`, returning the
result, the market orders submitted during the call, and the final state. -/
def evaluateAndHedge (hcfg : HedgeConfig) (rcfg : RateLimiterConfig) (now : ℕ)
    (env : HedgeEnv) (borrowerId : String) (creditScore loanAmount : ℚ)
    (s : HedgeState) : Except HedgeError Unit × List MarketOrder × HedgeState :=
  if hcfg.creditScoreThreshold < creditScore then
    (Except.ok (), [], s)
  else
    match RateLimiter.acquire rcfg now "hedge" 1 s.buckets with
    | (false, bk) => (Except.error HedgeError.rateLimitExceeded, [], { s with buckets := bk })
    | (true, bk) =>
        let hedgeAmount := calculateHedgeAmount hcfg loanAmount creditScore
        let ethPrice := env.ethPrice
        let order : MarketOrder :=
          { symbol := "ETH/USDC", side := OrderSide.sell, amount := hedgeAmount / ethPrice }
        match env.orderResult with
        | Except.error e => (Except.error (HedgeError.marketError e), [order], { s with buckets := bk })
        | Except.ok _ =>
            let position : HedgePosition :=
              { id := hedgePositionId now borrowerId
                openPrice := ethPrice
                amount := hedgeAmount
                timestamp := now
                creditScore := creditScore
                status := PositionStatus.Open
                pnl := none }
            (Except.ok (), [order],
              { positions := JsMap.set s.positions position.id position, buckets := bk })

/-- Number of open positions recorded for a given borrower (the borrower of a
position is recovered from its id, as `adjustHedgePosition` does). -/
def openCount (s : HedgeState) (borrowerId : String) : ℕ :=
  s.positions.countP fun p =>
    decide (p.2.status = PositionStatus.Open ∧ borrowerOfPositionId p.1 = borrowerId)

end HedgeService

/-! ## Concrete fixtures used by counterexamples and witnesses -/

/-- An environment in which the ETH price is 2000 and the market order
succeeds. -/
def exampleEnv : HedgeEnv := { ethPrice := 2000, orderResult := Except.ok () }

/-- An environment in which the market order throws. -/
def failEnv : HedgeEnv := { ethPrice := 2000, orderResult := Except.error "network" }

/-- A fresh `HedgeService`: no positions, no rate-limiter buckets. -/
def emptyHedgeState : HedgeState := { positions := [], buckets := [] }

/-! ## Claims C2 and C3 -/

/-- C2, counterexample: with `creditScore` exactly equal to the threshold
(600), `evaluateAndHedge` is NOT a no-op — the guard is
`creditScore > this.config.creditScoreThreshold`, strict. The call acquires a
rate-limiter token (the `hedge` bucket drops from 100 to 99 tokens), submits a
Market order (of amount 0), and records a new open position. -/
theorem claim_C2_counterexample :
    HedgeService.evaluateAndHedge defaultHedgeConfig defaultRateLimiterConfig 0
        exampleEnv "b" 600 50000 emptyHedgeState
      = (Except.ok (),
         [{ symbol := "ETH/USDC", side := OrderSide.sell, amount := 0 }],
         { positions := [("hedge_0_b",
             { id := "hedge_0_b", openPrice := 2000, amount := 0, timestamp := 0,
               creditScore := 600, status := PositionStatus.Open, pnl := none })],
           buckets := [("hedge", { tokens := 99, lastRefill := 0 })] }) := by
  norm_num [HedgeService.evaluateAndHedge, RateLimiter.acquire,
    RateLimiter.refillBucket, JsMap.get, JsMap.set,
    HedgeService.calculateHedgeAmount, HedgeService.hedgePositionId,
    defaultHedgeConfig, defaultRateLimiterConfig, exampleEnv, emptyHedgeState]
  decide

/-- C2 (corrected): `evaluateAndHedge` is a no-op — no token acquired, no
order submitted, no position added — exactly when the score is strictly
greater than `config.creditScoreThreshold`; a score equal to the threshold
proceeds to hedge (with hedge amount 0). -/
theorem claim_C2_amended (hcfg : HedgeConfig) (rcfg : RateLimiterConfig) (now : ℕ)
    (env : HedgeEnv) (borrowerId : String) (score loanAmount : ℚ) (s : HedgeState)
    (h : hcfg.creditScoreThreshold < score) :
    HedgeService.evaluateAndHedge hcfg rcfg now env borrowerId score loanAmount s
      = (Except.ok (), [], s) := by
  unfold HedgeService.evaluateAndHedge
  rw [if_pos h]

/-- C2 witness: a score of 601 against the default threshold 600 is a no-op. -/
theorem claim_C2_amended_witness :
    defaultHedgeConfig.creditScoreThreshold < 601 ∧
      HedgeService.evaluateAndHedge defaultHedgeConfig defaultRateLimiterConfig 0
          exampleEnv "b" 601 50000 emptyHedgeState
        = (Except.ok (), [], emptyHedgeState) :=
  ⟨by norm_num [defaultHedgeConfig],
   claim_C2_amended defaultHedgeConfig defaultRateLimiterConfig 0 exampleEnv "b"
     601 50000 emptyHedgeState (by norm_num [defaultHedgeConfig])⟩

/-- C3, counterexample: `calculateHedgeAmount` has no floor at 0. With the
default config and a score of 1200 (above the threshold 600) on a 50000 loan,
the result is -25000, which is negative. -/
theorem claim_C3_counterexample :
    HedgeService.calculateHedgeAmount defaultHedgeConfig 50000 1200 = -25000 ∧
      HedgeService.calculateHedgeAmount defaultHedgeConfig 50000 1200 < 0 := by
  constructor <;>
    norm_num [HedgeService.calculateHedgeAmount, defaultHedgeConfig]

/-- C3 (corrected): `calculateHedgeAmount` returns exactly
`min(loanAmount * hedgeRatio * (threshold - score)/threshold, maxHedgeAmount)`
with NO floor at 0; the result is nonnegative whenever `score ≤ threshold`
(and the config values are nonnegative), and scenario B evaluates to 25000. -/
theorem claim_C3_amended (cfg : HedgeConfig) (loanAmount score : ℚ) :
    HedgeService.calculateHedgeAmount cfg loanAmount score =
        min (loanAmount * cfg.hedgeRatio *
          ((cfg.creditScoreThreshold - score) / cfg.creditScoreThreshold))
          cfg.maxHedgeAmount ∧
      (0 ≤ loanAmount → 0 ≤ cfg.hedgeRatio → 0 < cfg.creditScoreThreshold →
        score ≤ cfg.creditScoreThreshold → 0 ≤ cfg.maxHedgeAmount →
        0 ≤ HedgeService.calculateHedgeAmount cfg loanAmount score) ∧
      HedgeService.calculateHedgeAmount defaultHedgeConfig 50000 0 = 25000 := by
  refine ⟨rfl, ?_, by norm_num [HedgeService.calculateHedgeAmount, defaultHedgeConfig]⟩
  intro hl hr hT hs hm
  show (0 : ℚ) ≤ min (loanAmount * cfg.hedgeRatio *
    ((cfg.creditScoreThreshold - score) / cfg.creditScoreThreshold)) cfg.maxHedgeAmount
  refine le_min ?_ hm
  exact mul_nonneg (mul_nonneg hl hr) (div_nonneg (by linarith) (le_of_lt hT))

/-- C3 witness: the nonnegativity clause instantiated at scenario B. -/
theorem claim_C3_amended_witness :
    (0 : ℚ) ≤ 50000 ∧ 0 ≤ defaultHedgeConfig.hedgeRatio ∧
      0 < defaultHedgeConfig.creditScoreThreshold ∧
      (0 : ℚ) ≤ defaultHedgeConfig.creditScoreThreshold ∧
      0 ≤ defaultHedgeConfig.maxHedgeAmount ∧
      0 ≤ HedgeService.calculateHedgeAmount defaultHedgeConfig 50000 0 :=
  ⟨by norm_num, by norm_num [defaultHedgeConfig], by norm_num [defaultHedgeConfig],
   by norm_num [defaultHedgeConfig], by norm_num [defaultHedgeConfig],
   (claim_C3_amended defaultHedgeConfig 50000 0).2.1 (by norm_num)
     (by norm_num [defaultHedgeConfig]) (by norm_num [defaultHedgeConfig])
     (by norm_num [defaultHedgeConfig]) (by norm_num [defaultHedgeConfig])⟩

/-! ## Claims C4 and C10 -/

/-- C4 (confirmed): if an admitted `evaluateAndHedge` call fails at Market
order execution, the error is rethrown and the position map is left exactly
as it was — no position is recorded. -/
theorem claim_C4 (hcfg : HedgeConfig) (rcfg : RateLimiterConfig) (now : ℕ)
    (env : HedgeEnv) (borrowerId : String) (score loanAmount : ℚ) (s : HedgeState)
    (e : String) (hscore : score ≤ hcfg.creditScoreThreshold)
    (hadm : (RateLimiter.acquire rcfg now "hedge" 1 s.buckets).1 = true)
    (hfail : env.orderResult = Except.error e) :
    (HedgeService.evaluateAndHedge hcfg rcfg now env borrowerId score loanAmount s).1
        = Except.error (HedgeError.marketError e) ∧
      (HedgeService.evaluateAndHedge hcfg rcfg now env borrowerId score loanAmount s).2.2.positions
        = s.positions := by
  have hc := (RateLimiter.acquire_fst_iff rcfg now "hedge" 1 s.buckets).mp hadm
  have hacq := RateLimiter.acquire_eq_of_admitted rcfg now "hedge" 1 s.buckets hc
  unfold HedgeService.evaluateAndHedge
  rw [if_neg (not_lt.mpr hscore), hacq, hfail]
  exact ⟨rfl, rfl⟩

/-- C4 witness: a concrete admitted call whose market order throws leaves the
empty position map empty and surfaces the market error. -/
theorem claim_C4_witness :
    (500 : ℚ) ≤ defaultHedgeConfig.creditScoreThreshold ∧
      (RateLimiter.acquire defaultRateLimiterConfig 0 "hedge" 1 emptyHedgeState.buckets).1 = true ∧
      failEnv.orderResult = Except.error "network" ∧
      ((HedgeService.evaluateAndHedge defaultHedgeConfig defaultRateLimiterConfig 0 failEnv
            "b" 500 50000 emptyHedgeState).1 = Except.error (HedgeError.marketError "network") ∧
        (HedgeService.evaluateAndHedge defaultHedgeConfig defaultRateLimiterConfig 0 failEnv
            "b" 500 50000 emptyHedgeState).2.2.positions = emptyHedgeState.positions) :=
  ⟨by norm_num [defaultHedgeConfig],
   by norm_num [RateLimiter.acquire, RateLimiter.refillBucket, JsMap.get,
     emptyHedgeState, defaultRateLimiterConfig],
   rfl,
   claim_C4 defaultHedgeConfig defaultRateLimiterConfig 0 failEnv "b" 500 50000
     emptyHedgeState "network" (by norm_num [defaultHedgeConfig])
     (by norm_num [RateLimiter.acquire, RateLimiter.refillBucket, JsMap.get,
       emptyHedgeState, defaultRateLimiterConfig]) rfl⟩

/-- C10 (confirmed): an admitted `evaluateAndHedge` call that fails at Market
execution does not refund the rate-limiter token: afterwards the `hedge`
bucket holds exactly one token fewer than its refilled pre-call level. -/
theorem claim_C10 (hcfg : HedgeConfig) (rcfg : RateLimiterConfig) (now : ℕ)
    (env : HedgeEnv) (borrowerId : String) (score loanAmount : ℚ) (s : HedgeState)
    (e : String) (hscore : score ≤ hcfg.creditScoreThreshold)
    (hadm : (RateLimiter.acquire rcfg now "hedge" 1 s.buckets).1 = true)
    (hfail : env.orderResult = Except.error e) :
    JsMap.get (HedgeService.evaluateAndHedge hcfg rcfg now env borrowerId score
        loanAmount s).2.2.buckets "hedge"
      = some ⟨(RateLimiter.refillBucket rcfg now
            ((JsMap.get s.buckets "hedge").getD
              ⟨rcfg.maxTokens, now⟩)).tokens - 1, now⟩ := by
  have hc := (RateLimiter.acquire_fst_iff rcfg now "hedge" 1 s.buckets).mp hadm
  have hacq := RateLimiter.acquire_eq_of_admitted rcfg now "hedge" 1 s.buckets hc
  unfold HedgeService.evaluateAndHedge
  rw [if_neg (not_lt.mpr hscore), hacq, hfail]
  exact JsMap.get_set_self s.buckets "hedge" _

/-- C10 witness: a concrete failed call leaves the `hedge` bucket at 99 of
100 tokens — the admission token is consumed. -/
theorem claim_C10_witness :
    (500 : ℚ) ≤ defaultHedgeConfig.creditScoreThreshold ∧
      (RateLimiter.acquire defaultRateLimiterConfig 0 "hedge" 1 emptyHedgeState.buckets).1 = true ∧
      failEnv.orderResult = Except.error "network" ∧
      JsMap.get (HedgeService.evaluateAndHedge defaultHedgeConfig defaultRateLimiterConfig 0
          failEnv "b" 500 50000 emptyHedgeState).2.2.buckets "hedge"
        = some ⟨(RateLimiter.refillBucket defaultRateLimiterConfig 0
              ((JsMap.get emptyHedgeState.buckets "hedge").getD
                ⟨defaultRateLimiterConfig.maxTokens, 0⟩)).tokens - 1, 0⟩ :=
  ⟨by norm_num [defaultHedgeConfig],
   by norm_num [RateLimiter.acquire, RateLimiter.refillBucket, JsMap.get,
     emptyHedgeState, defaultRateLimiterConfig],
   rfl,
   claim_C10 defaultHedgeConfig defaultRateLimiterConfig 0 failEnv "b" 500 50000
     emptyHedgeState "network" (by norm_num [defaultHedgeConfig])
     (by norm_num [RateLimiter.acquire, RateLimiter.refillBucket, JsMap.get,
       emptyHedgeState, defaultRateLimiterConfig]) rfl⟩

/-! ## Claim C1 -/

/-- C1, counterexample: two successive admitted `evaluateAndHedge` calls for
borrower `b` with score 500 (below the default threshold 600), at times 0 and
1, leave TWO positions with status `open` for that borrower in the position
map — position ids are `hedge_${Date.now()}_${borrowerId}`, so each call
appends a fresh entry and no per-borrower uniqueness is enforced. -/
theorem claim_C1_counterexample :
    HedgeService.openCount
      (HedgeService.evaluateAndHedge defaultHedgeConfig defaultRateLimiterConfig 1
        exampleEnv "b" 500 50000
        (HedgeService.evaluateAndHedge defaultHedgeConfig defaultRateLimiterConfig 0
          exampleEnv "b" 500 50000 emptyHedgeState).2.2).2.2 "b" = 2 := by
  have hid0 : HedgeService.hedgePositionId 0 "b" = "hedge_0_b" := by decide
  have hid1 : HedgeService.hedgePositionId 1 "b" = "hedge_1_b" := by decide
  have h1 : (HedgeService.evaluateAndHedge defaultHedgeConfig defaultRateLimiterConfig 0
        exampleEnv "b" 500 50000 emptyHedgeState).2.2
      = { positions := [("hedge_0_b",
            { id := "hedge_0_b", openPrice := 2000, amount := 12500 / 3, timestamp := 0,
              creditScore := 500, status := PositionStatus.Open, pnl := none })],
          buckets := [("hedge", ⟨99, 0⟩)] } := by
    norm_num [HedgeService.evaluateAndHedge, RateLimiter.acquire,
      RateLimiter.refillBucket, JsMap.get, JsMap.set,
      HedgeService.calculateHedgeAmount, hid0,
      defaultHedgeConfig, defaultRateLimiterConfig, exampleEnv, emptyHedgeState]
  rw [h1]
  have h2 : (HedgeService.evaluateAndHedge defaultHedgeConfig defaultRateLimiterConfig 1
        exampleEnv "b" 500 50000
        { positions := [("hedge_0_b",
            { id := "hedge_0_b", openPrice := 2000, amount := 12500 / 3, timestamp := 0,
              creditScore := 500, status := PositionStatus.Open, pnl := none })],
          buckets := [("hedge", ⟨99, 0⟩)] }).2.2
      = { positions := [("hedge_0_b",
            { id := "hedge_0_b", openPrice := 2000, amount := 12500 / 3, timestamp := 0,
              creditScore := 500, status := PositionStatus.Open, pnl := none }),
          ("hedge_1_b",
            { id := "hedge_1_b", openPrice := 2000, amount := 12500 / 3, timestamp := 1,
              creditScore := 500, status := PositionStatus.Open, pnl := none })],
          buckets := [("hedge", ⟨9801 / 100, 1⟩)] } := by
    norm_num [HedgeService.evaluateAndHedge, RateLimiter.acquire,
      RateLimiter.refillBucket, JsMap.get, JsMap.set,
      HedgeService.calculateHedgeAmount, hid1,
      defaultHedgeConfig, defaultRateLimiterConfig, exampleEnv]
    all_goals decide
  rw [h2]
  decide

/-- C1 (corrected): `evaluateAndHedge` does not enforce per-borrower
uniqueness of open positions: every admitted call with a score not above the
threshold whose market order succeeds and whose generated position id is not
yet a key of the map appends one more `open` position for that borrower. -/
theorem claim_C1_amended (hcfg : HedgeConfig) (rcfg : RateLimiterConfig) (now : ℕ)
    (env : HedgeEnv) (borrowerId : String) (score loanAmount : ℚ) (s : HedgeState)
    (hscore : score ≤ hcfg.creditScoreThreshold)
    (hadm : (RateLimiter.acquire rcfg now "hedge" 1 s.buckets).1 = true)
    (hok : env.orderResult = Except.ok ())
    (hfresh : JsMap.get s.positions (HedgeService.hedgePositionId now borrowerId) = none)
    (hparse : HedgeService.borrowerOfPositionId
      (HedgeService.hedgePositionId now borrowerId) = borrowerId) :
    HedgeService.openCount
        (HedgeService.evaluateAndHedge hcfg rcfg now env borrowerId score loanAmount s).2.2
        borrowerId
      = HedgeService.openCount s borrowerId + 1 := by
  have hc := (RateLimiter.acquire_fst_iff rcfg now "hedge" 1 s.buckets).mp hadm
  have hacq := RateLimiter.acquire_eq_of_admitted rcfg now "hedge" 1 s.buckets hc
  unfold HedgeService.evaluateAndHedge
  rw [if_neg (not_lt.mpr hscore), hacq, hok]
  show HedgeService.openCount
      { positions := JsMap.set s.positions (HedgeService.hedgePositionId now borrowerId) _
        buckets := _ } borrowerId = _
  unfold HedgeService.openCount
  rw [JsMap.set_eq_append_of_get_none _ hfresh, List.countP_append]
  simp [List.countP_cons, hparse]

/-- C1 witness: the amended statement at a concrete admitted call on the
empty state. -/
theorem claim_C1_amended_witness :
    (500 : ℚ) ≤ defaultHedgeConfig.creditScoreThreshold ∧
      (RateLimiter.acquire defaultRateLimiterConfig 0 "hedge" 1 emptyHedgeState.buckets).1 = true ∧
      exampleEnv.orderResult = Except.ok () ∧
      JsMap.get emptyHedgeState.positions (HedgeService.hedgePositionId 0 "b") = none ∧
      HedgeService.borrowerOfPositionId (HedgeService.hedgePositionId 0 "b") = "b" ∧
      HedgeService.openCount
          (HedgeService.evaluateAndHedge defaultHedgeConfig defaultRateLimiterConfig 0
            exampleEnv "b" 500 50000 emptyHedgeState).2.2 "b"
        = HedgeService.openCount emptyHedgeState "b" + 1 :=
  ⟨by norm_num [defaultHedgeConfig],
   by norm_num [RateLimiter.acquire, RateLimiter.refillBucket, JsMap.get,
     emptyHedgeState, defaultRateLimiterConfig],
   rfl, rfl, by decide,
   claim_C1_amended defaultHedgeConfig defaultRateLimiterConfig 0 exampleEnv "b"
     500 50000 emptyHedgeState (by norm_num [defaultHedgeConfig])
     (by norm_num [RateLimiter.acquire, RateLimiter.refillBucket, JsMap.get,
       emptyHedgeState, defaultRateLimiterConfig]) rfl rfl (by decide)⟩

/-! ## Claim C6 -/

/-- C6 (confirmed): over any sequence of `acquire` calls and refill-timer
ticks with nonnegative costs and nondecreasing times, every rate-limiter
bucket satisfies `0 ≤ tokens ≤ maxTokens`: refill clamps at `maxTokens` and
`acquire` deducts only when the bucket holds at least the cost. -/
theorem claim_C6 (cfg : RateLimiterConfig) (ops : List RateLimiter.RLOp)
    (buckets : RateLimiter.Buckets) (t : ℕ)
    (hmax : 0 ≤ cfg.maxTokens) (hrate : 0 ≤ cfg.refillRate)
    (hcost : ∀ op ∈ ops, 0 ≤ op.cost)
    (htimes : RateLimiter.TimesMono t ops)
    (hinv : RateLimiter.BucketsInv cfg t buckets) :
    ∀ p ∈ RateLimiter.run cfg buckets ops,
      0 ≤ p.2.tokens ∧ p.2.tokens ≤ cfg.maxTokens :=
  RateLimiter.run_inv cfg ops buckets t hmax hrate hcost htimes hinv

/-- C6 witness: a concrete run — an admitted acquire, a refill tick, a denied
oversized acquire, and an acquire on a second key — stays within bounds. -/
theorem claim_C6_witness :
    (0 : ℚ) ≤ defaultRateLimiterConfig.maxTokens ∧
      (0 : ℚ) ≤ defaultRateLimiterConfig.refillRate ∧
      (∀ op ∈ [RateLimiter.RLOp.acq "hedge" 1 0, RateLimiter.RLOp.tick 5,
        RateLimiter.RLOp.acq "hedge" 200 5, RateLimiter.RLOp.acq "api" 3 7],
        0 ≤ op.cost) ∧
      RateLimiter.TimesMono 0 [RateLimiter.RLOp.acq "hedge" 1 0, RateLimiter.RLOp.tick 5,
        RateLimiter.RLOp.acq "hedge" 200 5, RateLimiter.RLOp.acq "api" 3 7] ∧
      RateLimiter.BucketsInv defaultRateLimiterConfig 0 [] ∧
      ∀ p ∈ RateLimiter.run defaultRateLimiterConfig []
          [RateLimiter.RLOp.acq "hedge" 1 0, RateLimiter.RLOp.tick 5,
            RateLimiter.RLOp.acq "hedge" 200 5, RateLimiter.RLOp.acq "api" 3 7],
        0 ≤ p.2.tokens ∧ p.2.tokens ≤ defaultRateLimiterConfig.maxTokens :=
  ⟨by norm_num [defaultRateLimiterConfig], by norm_num [defaultRateLimiterConfig],
   by decide, by decide, by decide,
   claim_C6 defaultRateLimiterConfig _ [] 0
     (by norm_num [defaultRateLimiterConfig]) (by norm_num [defaultRateLimiterConfig])
     (by decide) (by decide) (by decide)⟩

/-! ## TransactionQueue / BatchProcessor
(`src/frontend/src/lib/contracts/HedgeContractService.ts`) -/

/-- `interface BatchConfig` of the BatchProcessor. -/
structure BatchConfig where
  maxBatchSize : ℕ
  maxRetries : ℕ
  retryDelay : ℚ
  processingInterval : ℕ
  deriving DecidableEq, Repr

/-- The default configuration in `BatchProcessor.getInstance`. -/
def defaultBatchConfig : BatchConfig :=
  { maxBatchSize := 10, maxRetries := 3, retryDelay := 1000, processingInterval := 5000 }

namespace BatchProcessor

/-- `BatchTransaction` (the opaque payload is omitted). -/
structure BatchTransaction where
  id : String
  priority : ℤ
  timestamp : ℕ
  retries : ℕ
  deriving DecidableEq, Repr

/-- `removeTransaction(id)`: `this.queue = this.queue.filter(tx => tx.id !== id)`. -/
def removeTransaction (queue : List BatchTransaction) (id : String) :
    List BatchTransaction :=
  queue.filter fun tx => tx.id != id

/-- The observable state of a BatchProcessor whose queue holds a single
always-failing transaction. Every queue entry for it is a reference to the
same `BatchTransaction` object (`addTransaction` pushes it once and the retry
`setTimeout` pushes the same reference again), so one shared `retries`
counter and a count of queue entries describe the queue exactly. -/
structure SingleTxState where
  copies : ℕ
  retries : ℕ
  pendingPushes : ℕ
  delays : List ℚ
  attempts : ℕ
  failedRecorded : Bool
  deriving DecidableEq, Repr

/-- One batch entry processed by `processBatch` when `submitTransaction`
throws — the `catch` branch: below `maxRetries`, bump `tx.retries` and
schedule `this.queue.push(tx)` after `retryDelay * tx.retries` (the increment
happens before the delay is computed); otherwise record the error in
`results` and call `removeTransaction(tx.id)`, which filters every copy of
the id out of the queue (`copies := 0`) but not out of the in-flight batch
array. -/
def processFailingEntry (cfg : BatchConfig) (s : SingleTxState) : SingleTxState :=
  if s.retries < cfg.maxRetries then
    { s with attempts := s.attempts + 1,
             retries := s.retries + 1,
             pendingPushes := s.pendingPushes + 1,
             delays := s.delays ++ [cfg.retryDelay * ((s.retries : ℚ) + 1)] }
  else
    { s with attempts := s.attempts + 1,
             copies := 0,
             failedRecorded := true }

/-- Process `n` batch entries in order (each one more submission attempt that
fails). -/
def processEntries (cfg : BatchConfig) : ℕ → SingleTxState → SingleTxState
  | 0, s => s
  | n + 1, s => processEntries cfg n (processFailingEntry cfg s)

/-- `processBatch()` with an always-failing wallet: the batch is
`this.queue.slice(0, this.config.maxBatchSize)` — a COPY of the first
entries, which does NOT dequeue them — and every batch entry is processed
even if `removeTransaction` empties the queue mid-batch. -/
def processBatchFailing (cfg : BatchConfig) (s : SingleTxState) : SingleTxState :=
  processEntries cfg (min s.copies cfg.maxBatchSize) s

/-- Between two drains of the `processingInterval` timer, every scheduled
retry push fires and appends the shared transaction object to the queue
again: with the default config each retry delay is at most
`retryDelay * maxRetries = 3000ms`, below `processingInterval = 5000ms`. -/
def firePendingPushes (s : SingleTxState) : SingleTxState :=
  { s with copies := s.copies + s.pendingPushes, pendingPushes := 0 }

/-- One full processing cycle: a timer drain followed by the retry pushes
that land before the next drain. -/
def drainCycle (cfg : BatchConfig) (s : SingleTxState) : SingleTxState :=
  firePendingPushes (processBatchFailing cfg s)

/-- Iterated processing cycles. -/
def drainCycles (cfg : BatchConfig) : ℕ → SingleTxState → SingleTxState
  | 0, s => s
  | n + 1, s => drainCycles cfg n (drainCycle cfg s)

/-- The queue right after `addTransaction` of the one failing transaction:
one entry, `retries: 0`, nothing scheduled, nothing attempted. -/
def initialSingleTx : SingleTxState :=
  { copies := 1, retries := 0, pendingPushes := 0, delays := [], attempts := 0,
    failedRecorded := false }

end BatchProcessor

/-- C9 (code_bug): evaluating `processBatch` at the failing input — one
always-failing transaction under the default config. Because
`queue.slice(0, maxBatchSize)` does not dequeue and the retry `setTimeout`
pushes the still-queued object again, the drains see 1, then 2, then 4 copies
of the transaction: it is submitted 7 times in total — 6 attempts after the
first, not the 3 the claim states — before `removeTransaction` clears it.
The shared retry counter is bumped only 3 times, scheduling the three
backoff pushes at delays 1000, 2000, 3000, and the transaction ends recorded
as permanently failed with the queue empty. -/
theorem claim_C9 :
    BatchProcessor.drainCycles defaultBatchConfig 3 BatchProcessor.initialSingleTx
        = { copies := 0, retries := 3, pendingPushes := 0,
            delays := [1000, 2000, 3000], attempts := 7, failedRecorded := true } ∧
      (BatchProcessor.drainCycles defaultBatchConfig 3
          BatchProcessor.initialSingleTx).attempts - 1 ≠ 3 := by
  constructor <;>
    norm_num [BatchProcessor.drainCycles, BatchProcessor.drainCycle,
      BatchProcessor.processBatchFailing, BatchProcessor.processEntries,
      BatchProcessor.processFailingEntry, BatchProcessor.firePendingPushes,
      BatchProcessor.initialSingleTx, defaultBatchConfig]

/-! ## CreditMonitorService observer delivery -/

namespace CreditMonitorService

/-- `notifyAlertCallbacks(alert)`:
`this.alertCallbacks.forEach(callback => callback(alert))`. Each registered
callback is represented by its effect on this alert (`ok` if it returns,
`error` if it throws). `forEach` runs the callbacks left to right, and a
thrown exception aborts the iteration and propagates. Returns how many
callbacks were invoked and the propagated exception, if any. -/
def notifyAlertCallbacks : List (Except String Unit) → ℕ × Option String
  | [] => (0, none)
  | Except.ok _ :: rest =>
      let r := notifyAlertCallbacks rest
      (r.1 + 1, r.2)
  | Except.error e :: _ => (1, some e)

end CreditMonitorService

/-- C7 (code_bug): delivery is a bare `forEach` with no per-callback
`try/catch`; with two registered observers of which the first throws, only
one observer is invoked — the second never receives the alert — and the
exception propagates to `checkCreditScore`'s catch. -/
theorem claim_C7 :
    CreditMonitorService.notifyAlertCallbacks [Except.error "boom", Except.ok ()]
        = (1, some "boom") ∧
      (CreditMonitorService.notifyAlertCallbacks [Except.error "boom", Except.ok ()]).1
        ≠ [Except.error "boom", Except.ok ()].length := by
  constructor
  · rfl
  · decide

/-! ## SmartCache (size- and TTL-bounded cache) -/

/-- `interface CacheConfig` of the SmartCache. -/
structure CacheConfig where
  maxSize : ℚ
  maxAge : ℤ
  cleanupInterval : ℕ
  deriving DecidableEq, Repr

/-- `interface CacheItem<T>`. -/
structure CacheItem (V : Type) where
  data : V
  timestamp : ℤ
  accessCount : ℕ
  lastAccess : ℤ
  size : ℚ
  deriving DecidableEq, Repr

/-- The SmartCache state relevant to the claims: the entry map and the
`stats.totalSize` counter that drives the eviction loop. -/
structure CacheState (V : Type) where
  cache : List (String × CacheItem V)
  totalSize : ℚ
  deriving DecidableEq, Repr

namespace SmartCache

/-- The eviction ranking `(accessCount / age) * (1 / timeSinceLastAccess)`.
In ℚ a division by zero yields 0 where JS floating point yields NaN or
Infinity; the claims under verification do not depend on the ranking. -/
def itemValue {V : Type} (now : ℤ) (item : CacheItem V) : ℚ :=
  ((item.accessCount : ℚ) / ((now : ℚ) - (item.timestamp : ℚ))) *
    (1 / ((now : ℚ) - (item.lastAccess : ℚ)))

/-- The scan of `evictLeastValuable` for the entry with the smallest ranking
(`value < leastValue`, starting from Infinity — so the first entry is always
an initial candidate). -/
def bestCandidate {V : Type} (now : ℤ) (cache : List (String × CacheItem V)) :
    Option (String × ℚ) :=
  cache.foldl
    (fun acc p =>
      match acc with
      | none => some (p.1, itemValue now p.2)
      | some (bk, bv) =>
          if itemValue now p.2 < bv then some (p.1, itemValue now p.2) else some (bk, bv))
    none

/-- `evictLeastValuable()`: delete the least-valuable entry, decrementing
`stats.totalSize`. -/
def evictLeastValuable {V : Type} (now : ℤ) (s : CacheState V) : CacheState V :=
  match bestCandidate now s.cache with
  | none => s
  | some (bk, _) =>
      match JsMap.get s.cache bk with
      | none => s
      | some item => { cache := JsMap.del s.cache bk, totalSize := s.totalSize - item.size }

/-- The `while (this.stats.totalSize + size > this.config.maxSize)` eviction
loop of `set`, with explicit fuel (`cache.length + 1` suffices; in the source
the loop diverges if the condition holds on an empty cache). -/
def evictLoop {V : Type} (cfg : CacheConfig) (now : ℤ) (size : ℚ) :
    ℕ → CacheState V → CacheState V
  | 0, s => s
  | fuel + 1, s =>
      if cfg.maxSize < s.totalSize + size then
        evictLoop cfg now size fuel (evictLeastValuable now s)
      else s

/-- `set(key, data)`: refuse to cache when the computed size exceeds
`maxSize`; otherwise evict until the item fits, then insert it with
`timestamp = now`. `calcSize` stands for `calculateSize`
(`JSON.stringify(data).length * 2`, whose byte count is
environment-dependent). -/
def set {V : Type} (calcSize : V → ℚ) (cfg : CacheConfig) (now : ℤ) (key : String)
    (data : V) (s : CacheState V) : CacheState V :=
  let size := calcSize data
  if cfg.maxSize < size then s
  else
    let s₁ := evictLoop cfg now size (s.cache.length + 1) s
    let item : CacheItem V :=
      { data := data, timestamp := now, accessCount := 0, lastAccess := now, size := size }
    { cache := JsMap.set s₁.cache key item, totalSize := s₁.totalSize + size }

/-- `get(key)`: miss on absence; on `Date.now() - item.timestamp > maxAge`
delete the entry and miss; otherwise bump the access statistics and return
the data. -/
def get {V : Type} (cfg : CacheConfig) (now : ℤ) (key : String) (s : CacheState V) :
    Option V × CacheState V :=
  match JsMap.get s.cache key with
  | none => (none, s)
  | some item =>
      if cfg.maxAge < now - item.timestamp then
        (none, { cache := JsMap.del s.cache key, totalSize := s.totalSize - item.size })
      else
        (some item.data,
          { cache := JsMap.set s.cache key
              { item with accessCount := item.accessCount + 1, lastAccess := now },
            totalSize := s.totalSize })

theorem nodupKeys_evictLeastValuable {V : Type} (now : ℤ) (s : CacheState V)
    (h : (s.cache.map Prod.fst).Nodup) :
    ((evictLeastValuable now s).cache.map Prod.fst).Nodup := by
  unfold evictLeastValuable
  cases hbest : bestCandidate now s.cache with
  | none => exact h
  | some b =>
      obtain ⟨bk, bv⟩ := b
      cases hget : JsMap.get s.cache bk with
      | none => simp only [hget]; exact h
      | some item => simp only [hget]; exact JsMap.nodupKeys_del bk h

theorem nodupKeys_evictLoop {V : Type} (cfg : CacheConfig) (now : ℤ) (size : ℚ)
    (fuel : ℕ) (s : CacheState V) (h : (s.cache.map Prod.fst).Nodup) :
    ((evictLoop cfg now size fuel s).cache.map Prod.fst).Nodup := by
  induction fuel generalizing s with
  | zero => exact h
  | succ n ih =>
      unfold evictLoop
      by_cases hc : cfg.maxSize < s.totalSize + size
      · rw [if_pos hc]
        exact ih _ (nodupKeys_evictLeastValuable now s h)
      · rw [if_neg hc]
        exact h

end SmartCache

/-- C8, counterexample: the round-trip does NOT hold regardless of the
value's computed byte size — `set` refuses any item whose computed size
(here 10) exceeds `maxSize` (here 4), so the immediate `get` misses. -/
theorem claim_C8_counterexample :
    (SmartCache.get { maxSize := 4, maxAge := 1000, cleanupInterval := 60000 } 0 "k"
        (SmartCache.set (fun _ => (10 : ℚ))
          { maxSize := 4, maxAge := 1000, cleanupInterval := 60000 } 0 "k" (7 : ℕ)
          { cache := [], totalSize := 0 })).1 = none ∧
      ({ maxSize := 4, maxAge := 1000, cleanupInterval := 60000 } : CacheConfig).maxSize
        < (fun _ => (10 : ℚ)) (7 : ℕ) := by
  constructor
  · decide
  · norm_num

/-- C8 (corrected): provided the value's computed size does not exceed
`maxSize` (and `maxAge` is nonnegative, and the cache map has no duplicate
keys), `set(k, v)` followed immediately by `get(k)` returns `v`, and once
`now − storedAt > maxAge` the entry misses and is evicted from the map. -/
theorem claim_C8_amended {V : Type} (calcSize : V → ℚ) (cfg : CacheConfig)
    (now later : ℤ) (key : String) (data : V) (s : CacheState V)
    (hsize : calcSize data ≤ cfg.maxSize) (hage : 0 ≤ cfg.maxAge)
    (hnodup : (s.cache.map Prod.fst).Nodup) :
    (SmartCache.get cfg now key (SmartCache.set calcSize cfg now key data s)).1
        = some data ∧
      (cfg.maxAge < later - now →
        (SmartCache.get cfg later key (SmartCache.set calcSize cfg now key data s)).1
            = none ∧
          JsMap.get (SmartCache.get cfg later key
              (SmartCache.set calcSize cfg now key data s)).2.cache key = none) := by
  have hset : SmartCache.set calcSize cfg now key data s =
      { cache := JsMap.set
          (SmartCache.evictLoop cfg now (calcSize data) (s.cache.length + 1) s).cache key
          { data := data, timestamp := now, accessCount := 0, lastAccess := now,
            size := calcSize data },
        totalSize := (SmartCache.evictLoop cfg now (calcSize data)
          (s.cache.length + 1) s).totalSize + calcSize data } := by
    unfold SmartCache.set
    rw [if_neg (not_lt.mpr hsize)]
  constructor
  · rw [hset]
    unfold SmartCache.get
    rw [JsMap.get_set_self]
    dsimp only
    have hc : ¬ cfg.maxAge < now - now := by
      rw [sub_self]
      exact not_lt.mpr hage
    rw [if_neg hc]
  · intro hlater
    rw [hset]
    unfold SmartCache.get
    rw [JsMap.get_set_self]
    dsimp only
    rw [if_pos hlater]
    refine ⟨rfl, ?_⟩
    exact JsMap.get_del_self_of_nodup
      (JsMap.nodupKeys_set key _ (SmartCache.nodupKeys_evictLoop cfg now _ _ s hnodup))

/-- C8 witness: a value of computed size 2 in a cache with `maxSize = 4` and
`maxAge = 1000` round-trips at time 0 and is expired and evicted at
time 1001. -/
theorem claim_C8_amended_witness :
    (fun _ => (2 : ℚ)) (7 : ℕ) ≤
        ({ maxSize := 4, maxAge := 1000, cleanupInterval := 60000 } : CacheConfig).maxSize ∧
      (0 : ℤ) ≤ ({ maxSize := 4, maxAge := 1000, cleanupInterval := 60000 } : CacheConfig).maxAge ∧
      (([] : List (String × CacheItem ℕ)).map Prod.fst).Nodup ∧
      (1000 : ℤ) < 1001 - 0 ∧
      (SmartCache.get { maxSize := 4, maxAge := 1000, cleanupInterval := 60000 } 0 "k"
          (SmartCache.set (fun _ => (2 : ℚ))
            { maxSize := 4, maxAge := 1000, cleanupInterval := 60000 } 0 "k" (7 : ℕ)
            { cache := [], totalSize := 0 })).1 = some 7 ∧
      (SmartCache.get { maxSize := 4, maxAge := 1000, cleanupInterval := 60000 } 1001 "k"
          (SmartCache.set (fun _ => (2 : ℚ))
            { maxSize := 4, maxAge := 1000, cleanupInterval := 60000 } 0 "k" (7 : ℕ)
            { cache := [], totalSize := 0 })).1 = none ∧
      JsMap.get (SmartCache.get { maxSize := 4, maxAge := 1000, cleanupInterval := 60000 }
          1001 "k"
          (SmartCache.set (fun _ => (2 : ℚ))
            { maxSize := 4, maxAge := 1000, cleanupInterval := 60000 } 0 "k" (7 : ℕ)
            { cache := [], totalSize := 0 })).2.cache "k" = none := by
  refine ⟨by norm_num, by norm_num, by decide, by norm_num, ?_, ?_, ?_⟩
  · exact (claim_C8_amended (fun _ => (2 : ℚ)) _ 0 1001 "k" 7 { cache := [], totalSize := 0 }
      (by norm_num) (by norm_num) (by decide)).1
  · exact ((claim_C8_amended (fun _ => (2 : ℚ)) _ 0 1001 "k" 7 { cache := [], totalSize := 0 }
      (by norm_num) (by norm_num) (by decide)).2 (by norm_num)).1
  · exact ((claim_C8_amended (fun _ => (2 : ℚ)) _ 0 1001 "k" 7 { cache := [], totalSize := 0 }
      (by norm_num) (by norm_num) (by decide)).2 (by norm_num)).2

/-! ## Claim C5 -/

/-- C5, counterexample: a batch that names the same key twice passes the
per-request pre-check (each `60 ≤ 100` individually), then the consume loop
admits the first request (100 → 40 tokens) and denies the second
(`60 > 40`), overwriting the result for key `a` to `false`. The batch thus
reports `false` for every key while 60 tokens were deducted from `a` — a
partially consumed batch that was not admitted in full. -/
theorem claim_C5_counterexample :
    (RateLimiter.acquireBatch defaultRateLimiterConfig 0 [("a", 60), ("a", 60)] []).1
        = [("a", false)] ∧
      (RateLimiter.acquireBatch defaultRateLimiterConfig 0 [("a", 60), ("a", 60)] []).2
        = [("a", { tokens := 40, lastRefill := 0 })] := by
  constructor <;>
    norm_num [RateLimiter.acquireBatch, RateLimiter.checkAll, RateLimiter.consumeAll,
      RateLimiter.acquire, RateLimiter.refillBucket, JsMap.get, JsMap.set,
      defaultRateLimiterConfig]

/-- C5 (corrected): `acquireBatch` with `timeout = 0` is all-or-nothing
PROVIDED the batch's keys are pairwise distinct and no request on a
yet-unseen key asks for more than `maxTokens`: either every key reports
`true`, or every key reports `false` and no bucket is consumed (each is left
untouched or merely refilled). With duplicate keys, or a fresh-key request
above `maxTokens`, the pre-check passes per-request while the consume loop
partially deducts (see the counterexample). -/
theorem claim_C5_amended (cfg : RateLimiterConfig) (now : ℕ)
    (requests : List (String × ℚ)) (m : RateLimiter.Buckets)
    (hnodup : (requests.map Prod.fst).Nodup)
    (hfresh : ∀ p ∈ requests, JsMap.get m p.1 = none → p.2 ≤ cfg.maxTokens) :
    (∀ p ∈ requests,
        JsMap.get (RateLimiter.acquireBatch cfg now requests m).1 p.1 = some true) ∨
      ((∀ p ∈ requests,
          JsMap.get (RateLimiter.acquireBatch cfg now requests m).1 p.1 = some false) ∧
        ∀ k, JsMap.get (RateLimiter.acquireBatch cfg now requests m).2 k
            = JsMap.get m k ∨
          ∃ b, JsMap.get m k = some b ∧
            JsMap.get (RateLimiter.acquireBatch cfg now requests m).2 k
              = some (RateLimiter.refillBucket cfg now b)) := by
  rcases hchk : RateLimiter.checkAll cfg now requests m with ⟨ok, m₁⟩
  cases ok with
  | true =>
      left
      have hb : RateLimiter.acquireBatch cfg now requests m
          = RateLimiter.consumeAll cfg now requests [] m₁ := by
        unfold RateLimiter.acquireBatch
        rw [hchk]
      rw [hb]
      exact RateLimiter.consume_success cfg now requests [] m₁ hnodup
        (RateLimiter.checkAll_ready cfg now requests m hfresh m₁ hchk).1
  | false =>
      right
      have hrel := RateLimiter.checkAll_rel cfg now requests m
      rw [hchk] at hrel
      have hb : RateLimiter.acquireBatch cfg now requests m
          = (requests.foldl (fun results p => JsMap.set results p.1 false) [], m₁) := by
        unfold RateLimiter.acquireBatch
        rw [hchk]
      rw [hb]
      exact ⟨fun p hp => RateLimiter.get_foldl_setFalse requests [] p.1
        (Or.inl (List.mem_map_of_mem Prod.fst hp)), hrel⟩

/-- C5 witness: a duplicate-free batch within bounds on a fresh limiter. -/
theorem claim_C5_amended_witness :
    (([("a", 60), ("b", 30)].map (Prod.fst (α := String) (β := ℚ))).Nodup) ∧
      (∀ p ∈ [(("a" : String), (60 : ℚ)), ("b", 30)],
        JsMap.get ([] : RateLimiter.Buckets) p.1 = none →
          p.2 ≤ defaultRateLimiterConfig.maxTokens) ∧
      ((∀ p ∈ [(("a" : String), (60 : ℚ)), ("b", 30)],
          JsMap.get (RateLimiter.acquireBatch defaultRateLimiterConfig 0
            [("a", 60), ("b", 30)] []).1 p.1 = some true) ∨
        ((∀ p ∈ [(("a" : String), (60 : ℚ)), ("b", 30)],
            JsMap.get (RateLimiter.acquireBatch defaultRateLimiterConfig 0
              [("a", 60), ("b", 30)] []).1 p.1 = some false) ∧
          ∀ k, JsMap.get (RateLimiter.acquireBatch defaultRateLimiterConfig 0
              [("a", 60), ("b", 30)] []).2 k = JsMap.get ([] : RateLimiter.Buckets) k ∨
            ∃ b, JsMap.get ([] : RateLimiter.Buckets) k = some b ∧
              JsMap.get (RateLimiter.acquireBatch defaultRateLimiterConfig 0
                [("a", 60), ("b", 30)] []).2 k
                = some (RateLimiter.refillBucket defaultRateLimiterConfig 0 b))) :=
  ⟨by decide, by decide,
   claim_C5_amended defaultRateLimiterConfig 0 [("a", 60), ("b", 30)] []
     (by decide) (by decide)⟩

end Aptgrameen
